import Mathlib

/-!
Verification of the Mac FONT/NFNT to BDF converter (src/mac2bdf.c).

The development shallowly embeds the two conversion functions of the source,
FontInfo and FontDump, together with their helpers (the big-endian byte
decoder, the glyph rasterizer loops, the style namer, and the BDF text
emission).  A FontRsrc is modelled as the raw byte buffer (a list of byte
values); all header fields are decoded from it exactly as the C code does.

Modelling conventions:
* C fixed-width integers: CARD8/CARD16 values are Nat (reads reduce mod 256
  per byte, so a CARD16 read is below 65536); INT16 values are Int obtained
  by reinterpreting the unsigned 16-bit read.
* The glyph raster (a byte array obtained from alloca and memset to zero in
  the source) is modelled as a total function Nat -> Nat from flat index to
  pixel value; in-bounds accesses, the only ones with defined C behaviour,
  agree with the array semantics.
* Out parameters: FontInfo writes through its five pointer parameters only
  on some paths, so the model takes the caller-visible incoming values and
  returns the (possibly unchanged) values.
* The program runs on a big-endian machine (the source targets SunOS/SPARC),
  so a 16-bit load yields the most-significant-byte-first word of the two
  bytes at the load address.  The conditional alignment copy of the bitmap
  image (an odd base address is memcpy'd to an aligned scratch buffer) is
  modelled by the `base` parameter threaded through FontInfo and FontDump.
* File output: whether fopen succeeds is an environment fact, modelled by
  the `fopenOk` parameter; the DumpResult records the C return value,
  whether an output file was created, and the text lines written to it.
-/

/-- C lines 203-208: big-endian unsigned 16-bit read from a byte pointer,
modelled on the suffix of the buffer the pointer points at.  The mod 256
reflects CARD8 storage of each cell. -/
def toushort (p : List Nat) : Nat :=
  ((p.getD 0 0 % 256) <<< 8) ||| (p.getD 1 0 % 256)

/-- C lines 210-215: signed 16-bit read, the reinterpretation of the
unsigned 16-bit read. -/
def toshort (p : List Nat) : Int :=
  let v := toushort p
  if v < 32768 then (v : Int) else (v : Int) - 65536

/-- C lines 217-222: big-endian unsigned 32-bit read. -/
def toulong (p : List Nat) : Nat :=
  ((p.getD 0 0 % 256) <<< 24) ||| ((p.getD 1 0 % 256) <<< 16) |||
    ((p.getD 2 0 % 256) <<< 8) ||| (p.getD 3 0 % 256)

/-- C lines 224-229: signed 32-bit read, reinterpreting the unsigned read. -/
def tolong (p : List Nat) : Int :=
  let v := toulong p
  if v < 2147483648 then (v : Int) else (v : Int) - 4294967296

/-- A FONT/NFNT resource: the raw byte buffer handed to FontInfo/FontDump
(the FontRsrcRec header followed by bitmap image, location table and
offset/width table). -/
structure FontRsrc where
  data : List Nat
deriving DecidableEq, Repr

namespace FontRsrc

/-- ftFirstChar (header offset 2), as read at C lines 254/410. -/
def fgN (f : FontRsrc) : Nat := toushort (f.data.drop 2)

/-- ftLastChar (header offset 4), as read at C lines 255/411. -/
def lgN (f : FontRsrc) : Nat := toushort (f.data.drop 4)

/-- ftKernMax (header offset 8), as read at C lines 256/412. -/
def mkI (f : FontRsrc) : Int := toshort (f.data.drop 8)

/-- ftFRectWidth (header offset 12), as read at C lines 257/413. -/
def wdI (f : FontRsrc) : Int := toshort (f.data.drop 12)

/-- ftFRectHeight (header offset 14), as read at C lines 258/414. -/
def htI (f : FontRsrc) : Int := toshort (f.data.drop 14)

/-- ftOWTLoc (header offset 16), as read at C lines 259/415 (unused by the
live code path). -/
def woN (f : FontRsrc) : Nat := toushort (f.data.drop 16)

/-- ftAscent (header offset 18), as read at C line 461. -/
def ascentI (f : FontRsrc) : Int := toshort (f.data.drop 18)

/-- ftDescent (header offset 20), as read at C lines 459/462/524. -/
def descentI (f : FontRsrc) : Int := toshort (f.data.drop 20)

/-- ftRowWords (header offset 24), as read at C lines 260/416. -/
def rwI (f : FontRsrc) : Int := toshort (f.data.drop 24)

/-- Natural view of ftFRectWidth for loop bounds and raster sizing (a
negative width makes the C alloca size negative, which is undefined; the
model clamps at zero, where no loop body runs). -/
def wdN (f : FontRsrc) : Nat := f.wdI.toNat

/-- Natural view of ftFRectHeight (same convention as wdN). -/
def htN (f : FontRsrc) : Nat := f.htI.toNat

/-- Natural view of ftRowWords (same convention as wdN). -/
def rwN (f : FontRsrc) : Nat := f.rwI.toNat

/-- C lines 262/418: bitImage = the bytes immediately after the fixed
26-byte FontRsrcRec header. -/
def bitImage (f : FontRsrc) : List Nat := f.data.drop 26

/-- C lines 263/419: byte offset of the location table within the buffer,
26 + ((rw * ht) << 1). -/
def locOff (f : FontRsrc) : Nat := 26 + (((f.rwI * f.htI).toNat) <<< 1)

/-- C lines 267/423: byte offset of the offset/width table,
locTable + ((lg - fg + 3) << 1). -/
def owOff (f : FontRsrc) : Nat := f.locOff + ((f.lgN - f.fgN + 3) <<< 1)

/-- memcpy length ht * rw * 2 of the alignment copy (C lines 274-275 and
467-468). -/
def lenN (f : FontRsrc) : Nat := ((f.htI * f.rwI).toNat) * 2

/-- Location-table entry gi (C lines 287-288 and 480-481):
toushort ( & locTable [ gi << 1 ] ). -/
def locEntry (f : FontRsrc) (gi : Nat) : Nat :=
  toushort (f.data.drop (f.locOff + (gi <<< 1)))

/-- Offset/width-table entry gi (C lines 295 and 488):
toushort ( & owTable [ gi << 1 ] ). -/
def owEntry (f : FontRsrc) (gi : Nat) : Nat :=
  toushort (f.data.drop (f.owOff + (gi <<< 1)))

end FontRsrc

/-- Glyph codes enumerated by the dump loops: g from firstChar to lastChar
inclusive (C lines 282 and 475). -/
def glyphRange (f : FontRsrc) : List Nat :=
  List.range' f.fgN (f.lgN + 1 - f.fgN)

/-- INT16 wrap-around of a C int value stored into a short variable. -/
def int16 (v : Int) : Int := (v + 32768) % 65536 - 32768

/-- The 16-bit scanline word at word index k of the bitmap image bytes: on
the big-endian target, ((CARD16 *) p)[k] is the most-significant-byte-first
word of the two bytes at byte offset 2k. -/
def beWordAt (img : List Nat) (k : Nat) : Nat := toushort (img.drop (2 * k))

/-- C lines 273-277 / 466-470: the scanline words used by the rasterizer.
If the bitImage address is odd (base % 2 = 1), the C code first memcpy's
ht * rw * 2 bytes into an aligned alloca buffer and reads words there;
otherwise it reads words in place. -/
def bpWords (img : List Nat) (len base : Nat) (k : Nat) : Nat :=
  if base % 2 = 1 then beWordAt (img.take len) k else beWordAt img k

/-- Pointwise update of the function-modelled raster (a C array store). -/
def setAt (gp : Nat → Nat) (idx v : Nat) : Nat → Nat :=
  fun t => if t = idx then v else gp t

/-- C lines 493-499 (FontDump per-glyph pass): memset the raster to zero,
then for each row i < ht and each bit column j in [coff0, coff1) store
bit (15 - j mod 16) of scanline word i * rw + j / 16 at flat raster index
i * wd + (j - coff0). -/
def extractGlyph (words : Nat → Nat) (wd rw coff0 coff1 ht : Nat) : Nat → Nat :=
  (List.range ht).foldl (fun gp i =>
    (List.range' coff0 (coff1 - coff0)).foldl (fun gp j =>
      setAt gp (i * wd + (j - coff0))
        ((words (i * rw + j / 16) >>> (15 - j % 16)) &&& 1)) gp)
    (fun _ => 0)

/-- C lines 301-308 (FontInfo global pass): overlay one glyph onto the
whole-font raster; columns whose target (j - coff0) + xoff would be
negative are silently skipped, other pixels are OR-accumulated at flat
index i * wd + (j - coff0) + xoff. -/
def infoOverlay (words : Nat → Nat) (wd rw coff0 coff1 ht : Nat) (xoff : Int)
    (gp : Nat → Nat) : Nat → Nat :=
  (List.range ht).foldl (fun gp (i : Nat) =>
    (List.range' coff0 (coff1 - coff0)).foldl (fun gp (j : Nat) =>
      if ((j : Int) - (coff0 : Int)) + xoff < 0 then gp
      else
        let idx := (((i : Int) * (wd : Int) + ((j : Int) - (coff0 : Int)) + xoff)).toNat
        setAt gp idx
          ((gp idx) ||| ((words (i * rw + j / 16) >>> (15 - j % 16)) &&& 1))) gp) gp

/-- C lines 316-326 (and 504-514): scan the raster for the least and
greatest row containing a set pixel; top starts at ht and bot at 0. -/
def findTopBot (gp : Nat → Nat) (wd ht : Nat) : Nat × Nat :=
  (List.range ht).foldl (fun tb i =>
    (List.range wd).foldl (fun tb j =>
      let bit := gp (i * wd + j)
      (if bit ≠ 0 ∧ i < tb.1 then i else tb.1,
       if bit ≠ 0 ∧ tb.2 < i then i else tb.2)) tb)
    (ht, 0)

/-- C lines 331-341: scan the raster for the least and greatest column
containing a set pixel; left starts at wd and right at 0. -/
def findLeftRight (gp : Nat → Nat) (wd ht : Nat) : Nat × Nat :=
  (List.range ht).foldl (fun lr i =>
    (List.range wd).foldl (fun lr j =>
      let bit := gp (i * wd + j)
      (if bit ≠ 0 ∧ j < lr.1 then j else lr.1,
       if bit ≠ 0 ∧ lr.2 < j then j else lr.2)) lr)
    (wd, 0)

/-- The five values FontInfo reports through its pointer parameters. -/
structure InfoOut where
  top : Int
  left : Int
  bottom : Int
  right : Int
  ng : Int
deriving DecidableEq, Repr

/-- One iteration of FontInfo's glyph loop (C lines 282-311): skip the
glyph entirely when its two adjacent location entries agree, otherwise
overlay its image (with basepoint offset xoff) and count it. -/
def fontInfoStep (f : FontRsrc) (base : Nat) (st : (Nat → Nat) × Nat) (g : Nat) :
    (Nat → Nat) × Nat :=
  let coff0 := f.locEntry (g - f.fgN)
  let coff1 := f.locEntry (g - f.fgN + 1)
  if coff0 = coff1 then st
  else
    let ow := f.owEntry (g - f.fgN)
    let xoff : Int := int16 ((((ow >>> 8) &&& 255 : Nat) : Int) + f.mkI)
    (infoOverlay (bpWords f.bitImage f.lenN base) f.wdN f.rwN coff0 coff1 f.htN
       xoff st.1,
     st.2 + 1)

/-- C lines 234-359, FontInfo: find the whole-font ink bounding box and the
number of live glyphs.  The `init` argument holds the values the caller's
variables had before the call; when lastChar equals firstChar the function
returns before writing any of them (C lines 270-271), so they come back
unchanged. -/
def FontInfo (f : FontRsrc) (base : Nat) (init : InfoOut) : InfoOut :=
  if f.lgN = f.fgN then init
  else
    let res := (glyphRange f).foldl (fontInfoStep f base) (fun _ => 0, 0)
    let tb := findTopBot res.1 f.wdN f.htN
    let lr := findLeftRight res.1 f.wdN f.htN
    { top := (tb.1 : Int), left := (lr.1 : Int) + f.mkI,
      bottom := (tb.2 : Int), right := (lr.2 : Int) + f.mkI,
      ng := (res.2 : Int) }

/-- C lines 361-387, FontStyleName: successive strcat of one fragment per
set style bit, in the fixed order of the if chain. -/
def FontStyleName (style : Nat) : String :=
  let s := ""
  let s := if style &&& 1 ≠ 0 then s ++ "Bold" else s
  let s := if style &&& 2 ≠ 0 then s ++ "Italic" else s
  let s := if style &&& 4 ≠ 0 then s ++ "Underlined" else s
  let s := if style &&& 8 ≠ 0 then s ++ "Outlined" else s
  let s := if style &&& 16 ≠ 0 then s ++ "Shadowed" else s
  let s := if style &&& 32 ≠ 0 then s ++ "Condensed" else s
  let s := if style &&& 64 ≠ 0 then s ++ "Extended" else s
  s

/-- C lines 527-538, inner packing loop of one BITMAP row, phrased with the
remaining iteration count (span - j) as the recursion measure.  Each
iteration ORs the next raster pixel into the accumulator and shifts; a
completed group of 8 is emitted as one byte; after the loop the partial
accumulator is left-shifted by 7 - (j mod 8) and emitted when j mod 8 is
not zero. -/
def packRowAux (g : Nat → Nat) (j bits : Nat) : Nat → List Nat
  | 0 => if j % 8 ≠ 0 then [bits <<< (7 - j % 8)] else []
  | n + 1 =>
    let bits := bits ||| g j
    if j % 8 = 7 then bits :: packRowAux g (j + 1) 0 n
    else packRowAux g (j + 1) (bits <<< 1) n

/-- One BITMAP row of a glyph spanning `span` bit columns: the byte values
printed by the loop at C lines 527-538. -/
def packRow (g : Nat → Nat) (span : Nat) : List Nat :=
  packRowAux g 0 0 span

/-- One lowercase hex digit (the digits printf %x uses). -/
def hexDigitL (n : Nat) : Char :=
  if n < 10 then Char.ofNat (48 + n) else Char.ofNat (87 + n)

/-- One uppercase hex digit (the digits printf %X uses). -/
def hexDigitU (n : Nat) : Char :=
  if n < 10 then Char.ofNat (48 + n) else Char.ofNat (55 + n)

/-- printf "%02x" of a byte value (always below 256 here): two lowercase
hex digits. -/
def hexByte (n : Nat) : String :=
  String.mk [hexDigitL (n / 16 % 16), hexDigitL (n % 16)]

/-- printf "%02X" of a CARD16 value: at least two uppercase hex digits
(used for the STARTCHAR glyph identifier at C line 516). -/
def hex2U (n : Nat) : String :=
  if n < 256 then String.mk [hexDigitU (n / 16), hexDigitU (n % 16)]
  else if n < 4096 then
    String.mk [hexDigitU (n / 256), hexDigitU (n / 16 % 16), hexDigitU (n % 16)]
  else
    String.mk [hexDigitU (n / 4096), hexDigitU (n / 256 % 16),
      hexDigitU (n / 16 % 16), hexDigitU (n % 16)]

/-- One BITMAP text line: the concatenated %02x bytes of one row. -/
def hexLine (bytes : List Nat) : String :=
  String.join (bytes.map hexByte)

/-- Everything FontDump prints for one live glyph (C lines 516-540),
kept as structured values; `renderGlyph` turns it into the text lines. -/
structure GlyphRecord where
  code : Nat
  swidthX : Nat
  swidthY : Nat
  dwidthX : Nat
  dwidthY : Nat
  bbxW : Int
  bbxH : Int
  bbxX : Int
  bbxY : Int
  bitmap : List (List Nat)
deriving DecidableEq, Repr

/-- The BDF header values FontDump prints (C lines 451-464). -/
structure BdfHeader where
  fontName : String
  sizePt : Int
  fbbW : Int
  fbbH : Int
  fbbX : Int
  fbbY : Int
  fontAscent : Int
  fontDescent : Int
  chars : Int
deriving DecidableEq, Repr

/-- Observable outcome of one FontDump call: the C return value, whether an
output file was created, and the header, glyph records and text lines
written to it. -/
structure DumpResult where
  retcode : Nat
  artifact : Bool
  header : Option BdfHeader
  records : List GlyphRecord
  lines : List String
deriving DecidableEq, Repr

/-- Location-table start column of glyph g (C line 480). -/
def dumpCoff0 (f : FontRsrc) (g : Nat) : Nat := f.locEntry (g - f.fgN)

/-- Location-table end column of glyph g (C line 481). -/
def dumpCoff1 (f : FontRsrc) (g : Nat) : Nat := f.locEntry (g - f.fgN + 1)

/-- Bit-column span coff1 - coff0 of glyph g, the count of iterations of
the loops at C lines 495 and 527. -/
def dumpSpan (f : FontRsrc) (g : Nat) : Nat := dumpCoff1 f g - dumpCoff0 f g

/-- The per-glyph raster FontDump builds for glyph g (C lines 493-499). -/
def dumpRaster (f : FontRsrc) (base g : Nat) : Nat → Nat :=
  extractGlyph (bpWords f.bitImage f.lenN base) f.wdN f.rwN
    (dumpCoff0 f g) (dumpCoff1 f g) f.htN

/-- Top ink row of glyph g's raster (C lines 504-513). -/
def dumpTop (f : FontRsrc) (base g : Nat) : Nat :=
  (findTopBot (dumpRaster f base g) f.wdN f.htN).1

/-- Bottom ink row of glyph g's raster (C lines 504-513). -/
def dumpBot (f : FontRsrc) (base g : Nat) : Nat :=
  (findTopBot (dumpRaster f base g) f.wdN f.htN).2

/-- The BITMAP rows FontDump emits for glyph g: rows top through bot
inclusive, each packed by the loop at C lines 527-538. -/
def dumpRows (f : FontRsrc) (base g : Nat) : List (List Nat) :=
  (List.range' (dumpTop f base g) (dumpBot f base g + 1 - dumpTop f base g)).map
    (fun i => packRow (fun j => dumpRaster f base g (i * f.wdN + j)) (dumpSpan f g))

/-- One iteration of FontDump's glyph loop (C lines 475-541): none when the
glyph's two adjacent location entries agree (the continue at line 483),
otherwise the full record printed for it. -/
def dumpGlyph (f : FontRsrc) (base g : Nat) : Option GlyphRecord :=
  if dumpCoff0 f g = dumpCoff1 f g then none
  else
    let ow := f.owEntry (g - f.fgN)
    some
      { code := g
        swidthX := (ow &&& 255) * 720
        swidthY := 0
        dwidthX := ow &&& 255
        dwidthY := 0
        bbxW := (dumpCoff1 f g : Int) - (dumpCoff0 f g : Int)
        bbxH := (dumpBot f base g : Int) - (dumpTop f base g : Int) + 1
        bbxX := (((ow >>> 8) &&& 255 : Nat) : Int) + f.mkI
        bbxY := (f.htI - f.descentI) - ((dumpBot f base g : Int) + 1)
        bitmap := dumpRows f base g }

/-- The text lines printed for one glyph record (C lines 516-540). -/
def renderGlyph (rec : GlyphRecord) : List String :=
  ("STARTCHAR GCID" ++ hex2U rec.code) ::
  ("ENCODING " ++ toString rec.code) ::
  ("SWIDTH " ++ toString rec.swidthX ++ " " ++ toString rec.swidthY) ::
  ("DWIDTH " ++ toString rec.dwidthX ++ " " ++ toString rec.dwidthY) ::
  ("BBX " ++ toString rec.bbxW ++ " " ++ toString rec.bbxH ++ " " ++
    toString rec.bbxX ++ " " ++ toString rec.bbxY) ::
  "BITMAP" ::
  (rec.bitmap.map hexLine ++ ["ENDCHAR"])

/-- The complete text of the BDF file (C lines 451-542). -/
def renderDump (hdr : BdfHeader) (recs : List GlyphRecord) : List String :=
  "STARTFONT 2.1" ::
  ("FONT " ++ hdr.fontName) ::
  ("SIZE " ++ toString hdr.sizePt ++ " 72 72") ::
  ("FONTBOUNDINGBOX " ++ toString hdr.fbbW ++ " " ++ toString hdr.fbbH ++ " " ++
    toString hdr.fbbX ++ " " ++ toString hdr.fbbY) ::
  "STARTPROPERTIES 2" ::
  ("FONT_ASCENT " ++ toString hdr.fontAscent) ::
  ("FONT_DESCENT " ++ toString hdr.fontDescent) ::
  "ENDPROPERTIES" ::
  ("CHARS " ++ toString hdr.chars) ::
  ((recs.map renderGlyph).flatten ++ ["ENDFONT"])

/-- C lines 389-545, FontDump: convert one font resource to a BDF file.
A null font pointer, a null family name or a zero size returns 1 at once
(C line 407), as does a font whose first and last character codes agree
(C line 429); the file is then created, and failure to create it returns 0
(C lines 436-440); otherwise the header, the live glyph records and the
closing ENDFONT line are written and 1 is returned. -/
def FontDump (fp : Option FontRsrc) (name : Option String) (style : Nat)
    (size : Int) (fopenOk : Bool) (base : Nat) : DumpResult :=
  match fp, name with
  | none, _ => ⟨1, false, none, [], []⟩
  | some _, none => ⟨1, false, none, [], []⟩
  | some f, some nm =>
    if size = 0 then ⟨1, false, none, [], []⟩
    else if f.lgN = f.fgN then ⟨1, false, none, [], []⟩
    else if fopenOk = false then ⟨0, false, none, [], []⟩
    else
      let info := FontInfo f base ⟨0, 0, 0, 0, 0⟩
      let hdr : BdfHeader :=
        { fontName := nm ++ FontStyleName style ++ "-" ++ toString size
          sizePt := size
          fbbW := info.right - info.left + 1
          fbbH := info.bottom - info.top + 1
          fbbX := f.mkI
          fbbY := (f.htI - f.descentI) - (info.bottom + 1)
          fontAscent := f.ascentI
          fontDescent := f.descentI
          chars := info.ng }
      let recs := (glyphRange f).filterMap (dumpGlyph f base)
      ⟨1, true, some hdr, recs, renderDump hdr recs⟩

/-- Spec-side view (section 4.2, step 3): the 16-bit most-significant-byte
first word at index w within row i of the packed bitmap image. -/
def rowWordSpec (img : List Nat) (rw i w : Nat) : Nat :=
  beWordAt (img.drop (i * (2 * rw))) w

/-- Spec-side view (section 4.3): byte b of a bitmap row packed most
significant bit first and right-padded with zero bits to the byte
boundary. -/
def specRowByte (g : Nat → Nat) (span b : Nat) : Nat :=
  ((List.range 8).map
    (fun t => (if 8 * b + t < span then g (8 * b + t) else 0) * 2 ^ (7 - t))).sum

/-- Spec-side decoding of a hex bitmap row (section 8, round-trip
property): bit j of the row, read most-significant-bit first from the
byte sequence. -/
def decodeRowBit (bytes : List Nat) (j : Nat) : Nat :=
  (bytes.getD (j / 8) 0 >>> (7 - j % 8)) &&& 1

/-- The seven style fragments in the fixed bit order of section 4.4. -/
def styleFragments : List String :=
  ["Bold", "Italic", "Underlined", "Outlined", "Shadowed", "Condensed", "Extended"]

/-- Spec-side style namer (section 4.4): ordered concatenation of one
fragment per set bit. -/
def styleNameSpec (mask : Nat) : String :=
  String.join ((List.range 7).filterMap
    (fun b => if mask.testBit b then some (styleFragments.getD b "") else none))

/-- Whether raster row i contains a set pixel. -/
def rowInk (gp : Nat → Nat) (wd i : Nat) : Prop :=
  ∃ j, j < wd ∧ gp (i * wd + j) ≠ 0

/-- The concrete resource of the section 8 scenario: firstChar 65,
lastChar 66, height 1, rowWords 1, bitmap word 0b1010000000000000, glyph A
spanning columns 0 to 4 with advance width 8, glyph B empty. -/
def scenFont : FontRsrc :=
  ⟨[0, 0, 0, 65, 0, 66, 0, 8, 0, 0, 0, 0, 0, 8, 0, 1, 0, 0, 0, 1, 0, 0, 0, 0, 0, 1,
    160, 0,
    0, 0, 0, 4, 0, 4,
    0, 0,
    0, 8, 0, 0]⟩

/-- A resource with firstChar 0, lastChar 1 and an all-zero body: its
location-table entries all agree, so it has character slots but zero live
glyphs. -/
def emptyCoffFont : FontRsrc := ⟨[0, 0, 0, 0, 0, 1]⟩

/-- A resource whose firstChar and lastChar agree (both decode to 0). -/
def eqCharFont : FontRsrc := ⟨[]⟩

/-- C1: the claim says an output artifact is created exactly when at least
one live glyph exists.  Counterexample: emptyCoffFont has two character
slots but zero live glyphs (FontInfo counts 0), yet FontDump — which only
tests lastChar against firstChar — creates the artifact and writes a
header with CHARS 0. -/
theorem C1_counterexample :
    emptyCoffFont.lgN ≠ emptyCoffFont.fgN ∧
    (FontInfo emptyCoffFont 0 ⟨0, 0, 0, 0, 0⟩).ng = 0 ∧
    (FontDump (some emptyCoffFont) (some "X") 0 12 true 0).artifact = true ∧
    (FontDump (some emptyCoffFont) (some "X") 0 12 true 0).lines ≠ [] := by
  decide

/-- C1 (amended): an output artifact is created exactly when the font and
name pointers are non-null, the size is nonzero, firstChar differs from
lastChar, and the output file can be opened; the live-glyph count plays no
part, so a zero-live-glyph font with distinct character codes still
creates an artifact. -/
theorem C1_artifact_iff (fp : Option FontRsrc) (name : Option String)
    (style : Nat) (size : Int) (ok : Bool) (base : Nat) :
    (FontDump fp name style size ok base).artifact = true ↔
      ∃ f nm, fp = some f ∧ name = some nm ∧ size ≠ 0 ∧ f.lgN ≠ f.fgN ∧ ok = true := by
  cases fp with
  | none => simp [FontDump]
  | some f =>
    cases name with
    | none => simp [FontDump]
    | some nm =>
      by_cases hs : size = 0
      · subst hs; simp [FontDump]
      · by_cases hg : f.lgN = f.fgN
        · simp [FontDump, hs, hg]
        · cases ok <;> simp [FontDump, hs, hg]

/-- C2: the claim says FontInfo returns a zero glyph count and empty
bounding box through its result parameters when firstChar equals lastChar.
Counterexample: the early return at C lines 270-271 happens before any of
the five result parameters is written, so the caller's values come back
untouched — here a glyph count of 5. -/
theorem C2_counterexample :
    eqCharFont.fgN = eqCharFont.lgN ∧
    FontInfo eqCharFont 0 ⟨1, 2, 3, 4, 5⟩ = ⟨1, 2, 3, 4, 5⟩ ∧
    (FontInfo eqCharFont 0 ⟨1, 2, 3, 4, 5⟩).ng ≠ 0 := by
  decide

/-- C2 (amended): for a font with firstChar equal to lastChar, FontInfo
returns immediately leaving its result parameters unchanged (whatever
values the caller supplied), and FontDump returns 1 with no artifact, no
records and no output. -/
theorem C2_equal_chars (f : FontRsrc) (base : Nat) (init : InfoOut)
    (nm : String) (style : Nat) (size : Int) (ok : Bool)
    (h : f.lgN = f.fgN) :
    FontInfo f base init = init ∧
    FontDump (some f) (some nm) style size ok base = ⟨1, false, none, [], []⟩ := by
  constructor
  · simp [FontInfo, h]
  · by_cases hs : size = 0 <;> simp [FontDump, hs, h]

/-- Witness for C2_equal_chars at a concrete font and caller state. -/
theorem C2_equal_chars_witness :
    FontInfo eqCharFont 1 ⟨9, 9, 9, 9, 9⟩ = ⟨9, 9, 9, 9, 9⟩ ∧
    FontDump (some eqCharFont) (some "W") 0 7 true 1 = ⟨1, false, none, [], []⟩ :=
  C2_equal_chars eqCharFont 1 ⟨9, 9, 9, 9, 9⟩ "W" 0 7 true (by decide)

/-- C8: the claim says a null or empty family name is a usage error
reported before any output.  Counterexample: only a null name pointer is
tested at C line 407; with an empty (non-null) name FontDump proceeds and
creates the output artifact. -/
theorem C8_counterexample :
    ("" : String).length = 0 ∧
    (FontDump (some scenFont) (some "") 0 12 true 0).artifact = true := by
  decide

/-- C8 (amended): if the family name is null (not merely empty) or the
point size is zero, FontDump returns 1 immediately, before any decoding,
creating no artifact and producing no output; an empty but non-null family
name is not treated as a usage error. -/
theorem C8_usage_guard (fp : Option FontRsrc) (name : Option String)
    (style : Nat) (size : Int) (ok : Bool) (base : Nat)
    (h : name = none ∨ size = 0) :
    FontDump fp name style size ok base = ⟨1, false, none, [], []⟩ := by
  cases fp with
  | none => rfl
  | some f =>
    rcases h with rfl | rfl
    · rfl
    · cases name with
      | none => rfl
      | some nm => simp [FontDump]

/-- Witness for C8_usage_guard: zero point size with everything else
well-formed. -/
theorem C8_usage_guard_witness :
    FontDump (some scenFont) (some "Chicago") 3 0 true 0 = ⟨1, false, none, [], []⟩ :=
  C8_usage_guard (some scenFont) (some "Chicago") 3 0 true 0 (Or.inr rfl)

/-- C10: FontDump returns 0 exactly when the output file cannot be
created; every other case — null font, null name, zero size, equal first
and last character codes, and successful emission — returns 1. -/
theorem C10_retcode (fp : Option FontRsrc) (name : Option String)
    (f : FontRsrc) (nm : String) (style : Nat) (size : Int) (ok : Bool)
    (base : Nat) :
    (FontDump none name style size ok base).retcode = 1 ∧
    (FontDump (some f) none style size ok base).retcode = 1 ∧
    ((FontDump (some f) (some nm) style size ok base).retcode =
      if size ≠ 0 ∧ f.lgN ≠ f.fgN ∧ ok = false then 0 else 1) ∧
    ((FontDump fp name style size ok base).retcode = 0 ↔
      ∃ f2 nm2, fp = some f2 ∧ name = some nm2 ∧ size ≠ 0 ∧
        f2.lgN ≠ f2.fgN ∧ ok = false) := by
  refine ⟨rfl, rfl, ?_, ?_⟩
  · by_cases hs : size = 0
    · subst hs; simp [FontDump]
    · by_cases hg : f.lgN = f.fgN
      · simp [FontDump, hs, hg]
      · cases ok <;> simp [FontDump, hs, hg]
  · cases fp with
    | none => simp [FontDump]
    | some f2 =>
      cases name with
      | none => simp [FontDump]
      | some nm2 =>
        by_cases hs : size = 0
        · subst hs; simp [FontDump]
        · by_cases hg : f2.lgN = f2.fgN
          · simp [FontDump, hs, hg]
          · cases ok <;> simp [FontDump, hs, hg]

/-- String.foldl-form of join with an arbitrary accumulator. -/
theorem str_join_foldl (l : List String) (a : String) :
    l.foldl (fun r s => r ++ s) a = a ++ String.join l := by
  induction l generalizing a with
  | nil => show a = a ++ "" ; rw [String.append_empty]
  | cons x xs ih =>
    show xs.foldl (fun r s => r ++ s) (a ++ x) = a ++ String.join (x :: xs)
    rw [ih (a ++ x)]
    show (a ++ x) ++ String.join xs = a ++ xs.foldl (fun r s => r ++ s) ("" ++ x)
    rw [ih ("" ++ x), String.empty_append, String.append_assoc]

/-- Unfolding lemma for String.join on a cons. -/
theorem str_join_cons (x : String) (xs : List String) :
    String.join (x :: xs) = x ++ String.join xs := by
  show xs.foldl (fun r s => r ++ s) ("" ++ x) = x ++ String.join xs
  rw [String.empty_append, str_join_foldl]

/-- Joining a filterMap equals joining the map that replaces a dropped
element by the empty string. -/
theorem join_filterMap (f : Nat → Option String) (l : List Nat) :
    String.join (l.filterMap f) = String.join (l.map (fun x => (f x).getD "")) := by
  induction l with
  | nil => rfl
  | cons x xs ih =>
    cases hx : f x with
    | none =>
      rw [List.filterMap_cons_none hx, List.map_cons, str_join_cons, hx]
      show String.join (xs.filterMap f) = "" ++ String.join (xs.map fun x => (f x).getD "")
      rw [String.empty_append, ih]
    | some v =>
      rw [List.filterMap_cons_some hx, List.map_cons, str_join_cons, str_join_cons, hx, ih]
      rfl

/-- A conditional strcat appends the conditional fragment. -/
theorem ite_strcat (p : Prop) [Decidable p] (s t : String) :
    (if p then s ++ t else s) = s ++ (if p then t else "") := by
  split
  · rfl
  · rw [String.append_empty]

/-- getD of a conditional some. -/
theorem getD_if_opt (p : Prop) [Decidable p] (s : String) :
    (if p then some s else none).getD "" = if p then s else "" := by
  split <;> rfl

/-- A masked bit is nonzero exactly when the bit tests true. -/
theorem and_pow_ne (mask b : Nat) : (mask &&& 2 ^ b ≠ 0) ↔ mask.testBit b = true := by
  rw [Nat.and_two_pow]
  cases h : mask.testBit b <;> simp [h, pow_ne_zero]

/-- and_pow_ne at bit 0 (mask literal 1). -/
theorem and1_tb (mask : Nat) : (mask &&& 1 ≠ 0) ↔ mask.testBit 0 = true := and_pow_ne mask 0

/-- and_pow_ne at bit 1 (mask literal 2). -/
theorem and2_tb (mask : Nat) : (mask &&& 2 ≠ 0) ↔ mask.testBit 1 = true := and_pow_ne mask 1

/-- and_pow_ne at bit 2 (mask literal 4). -/
theorem and4_tb (mask : Nat) : (mask &&& 4 ≠ 0) ↔ mask.testBit 2 = true := and_pow_ne mask 2

/-- and_pow_ne at bit 3 (mask literal 8). -/
theorem and8_tb (mask : Nat) : (mask &&& 8 ≠ 0) ↔ mask.testBit 3 = true := and_pow_ne mask 3

/-- and_pow_ne at bit 4 (mask literal 16). -/
theorem and16_tb (mask : Nat) : (mask &&& 16 ≠ 0) ↔ mask.testBit 4 = true := and_pow_ne mask 4

/-- and_pow_ne at bit 5 (mask literal 32). -/
theorem and32_tb (mask : Nat) : (mask &&& 32 ≠ 0) ↔ mask.testBit 5 = true := and_pow_ne mask 5

/-- and_pow_ne at bit 6 (mask literal 64). -/
theorem and64_tb (mask : Nat) : (mask &&& 64 ≠ 0) ↔ mask.testBit 6 = true := and_pow_ne mask 6

/-- styleNameSpec unfolded to a chain of conditional fragments. -/
theorem styleNameSpec_eq (mask : Nat) :
    styleNameSpec mask =
      (if mask.testBit 0 then "Bold" else "") ++
      ((if mask.testBit 1 then "Italic" else "") ++
      ((if mask.testBit 2 then "Underlined" else "") ++
      ((if mask.testBit 3 then "Outlined" else "") ++
      ((if mask.testBit 4 then "Shadowed" else "") ++
      ((if mask.testBit 5 then "Condensed" else "") ++
      ((if mask.testBit 6 then "Extended" else "") ++ "")))))) := by
  rw [styleNameSpec, join_filterMap]
  simp only [show List.range 7 = [0, 1, 2, 3, 4, 5, 6] from rfl, List.map_cons,
    List.map_nil, getD_if_opt, str_join_cons, styleFragments,
    List.getD_cons_zero, List.getD_cons_succ]
  rfl

/-- FontStyleName unfolded to the same chain of conditional fragments. -/
theorem FontStyleName_eq (mask : Nat) :
    FontStyleName mask =
      ((((((("" ++ (if mask.testBit 0 then "Bold" else "")) ++
      (if mask.testBit 1 then "Italic" else "")) ++
      (if mask.testBit 2 then "Underlined" else "")) ++
      (if mask.testBit 3 then "Outlined" else "")) ++
      (if mask.testBit 4 then "Shadowed" else "")) ++
      (if mask.testBit 5 then "Condensed" else "")) ++
      (if mask.testBit 6 then "Extended" else "")) := by
  simp only [FontStyleName, ite_strcat, and1_tb, and2_tb, and4_tb, and8_tb,
    and16_tb, and32_tb, and64_tb]

/-- C9: FontStyleName maps a style mask to the ordered concatenation of
one fragment per set bit, in the fixed bit order Bold, Italic, Underline,
Outline, Shadow, Condense, Extend; mask 0 yields the empty string and mask
3 yields BoldItalic. -/
theorem C9_style_name : (∀ mask, FontStyleName mask = styleNameSpec mask) ∧
    FontStyleName 0 = "" ∧ FontStyleName 3 = "BoldItalic" := by
  refine ⟨fun mask => ?_, by decide, by decide⟩
  rw [FontStyleName_eq, styleNameSpec_eq]
  simp only [String.append_assoc, String.empty_append, String.append_empty]

/-- The record a live glyph produces carries that glyph's code. -/
theorem dumpGlyph_code (f : FontRsrc) (base g : Nat) (rec : GlyphRecord)
    (h : dumpGlyph f base g = some rec) : rec.code = g := by
  simp only [dumpGlyph] at h
  split at h
  · exact Option.noConfusion h
  · injection h with h2
    rw [← h2]

/-- Every record FontDump emits comes from some glyph code in the font's
range via dumpGlyph. -/
theorem FontDump_records_mem (f : FontRsrc) (nm : String) (style : Nat)
    (size : Int) (ok : Bool) (base : Nat) (rec : GlyphRecord)
    (h : rec ∈ (FontDump (some f) (some nm) style size ok base).records) :
    ∃ g, g ∈ glyphRange f ∧ dumpGlyph f base g = some rec := by
  simp only [FontDump] at h
  split_ifs at h with h1 h2 h3
  · exact absurd h (List.not_mem_nil rec)
  · exact absurd h (List.not_mem_nil rec)
  · exact absurd h (List.not_mem_nil rec)
  · exact List.mem_filterMap.mp h

/-- C6: a glyph whose two adjacent location-table entries agree
contributes nothing: the FontInfo loop step leaves the accumulated raster
and glyph count unchanged, dumpGlyph emits no record for it, and no record
of the emitted BDF document carries its code. -/
theorem C6_skip (f : FontRsrc) (base : Nat) (st : (Nat → Nat) × Nat)
    (g : Nat) (nm : String) (style : Nat) (size : Int) (ok : Bool)
    (rec : GlyphRecord)
    (h : f.locEntry (g - f.fgN) = f.locEntry (g - f.fgN + 1))
    (hrec : rec ∈ (FontDump (some f) (some nm) style size ok base).records) :
    fontInfoStep f base st g = st ∧
    dumpGlyph f base g = none ∧
    rec.code ≠ g := by
  have hskip : dumpGlyph f base g = none := by
    simp only [dumpGlyph, dumpCoff0, dumpCoff1]
    rw [if_pos h]
  refine ⟨?_, hskip, ?_⟩
  · simp only [fontInfoStep]
    rw [if_pos h]
  · obtain ⟨g2, _, hg2⟩ := FontDump_records_mem f nm style size ok base rec hrec
    intro hcode
    rw [dumpGlyph_code f base g2 rec hg2] at hcode
    rw [hcode] at hg2
    rw [hskip] at hg2
    exact Option.noConfusion hg2

/-- Witness for C6_skip: glyph 66 of the scenario font has equal location
entries; the one record the dump emits is glyph 65's. -/
theorem C6_skip_witness :
    fontInfoStep scenFont 0 ((fun _ => 0), 0) 66 = ((fun _ => 0), 0) ∧
    dumpGlyph scenFont 0 66 = none ∧
    ((FontDump (some scenFont) (some "Test") 0 12 true 0).records.getD 0
      ⟨0, 0, 0, 0, 0, 0, 0, 0, 0, []⟩).code ≠ 66 :=
  C6_skip scenFont 0 ((fun _ => 0), 0) 66 "Test" 0 12 true
    ((FontDump (some scenFont) (some "Test") 0 12 true 0).records.getD 0
      ⟨0, 0, 0, 0, 0, 0, 0, 0, 0, []⟩)
    (by decide) (by decide)

/-- C7: on every emitted glyph record the SWIDTH horizontal value is 720
times the DWIDTH horizontal value (the advance width, the low byte of the
offset/width entry), and both vertical components are 0. -/
theorem C7_swidth (f : FontRsrc) (nm : String) (style : Nat) (size : Int)
    (ok : Bool) (base : Nat) (rec : GlyphRecord)
    (h : rec ∈ (FontDump (some f) (some nm) style size ok base).records) :
    rec.swidthX = rec.dwidthX * 720 ∧ rec.swidthY = 0 ∧ rec.dwidthY = 0 := by
  obtain ⟨g, _, hg⟩ := FontDump_records_mem f nm style size ok base rec h
  simp only [dumpGlyph] at hg
  split at hg
  · exact Option.noConfusion hg
  · injection hg with h2
    rw [← h2]
    exact ⟨rfl, rfl, rfl⟩

/-- Witness for C7_swidth at the scenario font's single record. -/
theorem C7_swidth_witness :
    ((FontDump (some scenFont) (some "Test") 0 12 true 0).records.getD 0
      ⟨0, 0, 0, 0, 0, 0, 0, 0, 0, []⟩).swidthX =
      ((FontDump (some scenFont) (some "Test") 0 12 true 0).records.getD 0
        ⟨0, 0, 0, 0, 0, 0, 0, 0, 0, []⟩).dwidthX * 720 ∧
    ((FontDump (some scenFont) (some "Test") 0 12 true 0).records.getD 0
      ⟨0, 0, 0, 0, 0, 0, 0, 0, 0, []⟩).swidthY = 0 ∧
    ((FontDump (some scenFont) (some "Test") 0 12 true 0).records.getD 0
      ⟨0, 0, 0, 0, 0, 0, 0, 0, 0, []⟩).dwidthY = 0 :=
  C7_swidth scenFont "Test" 0 12 true 0
    ((FontDump (some scenFont) (some "Test") 0 12 true 0).records.getD 0
      ⟨0, 0, 0, 0, 0, 0, 0, 0, 0, []⟩)
    (by decide)

/-- getD through a drop. -/
theorem getD_drop (l : List Nat) (m n : Nat) :
    (l.drop m).getD n 0 = l.getD (m + n) 0 := by
  simp [List.getD_eq_getElem?_getD, List.getElem?_drop]

/-- getD through a take, inside the taken prefix. -/
theorem getD_take (l : List Nat) (m n : Nat) (h : n < m) :
    (l.take m).getD n 0 = l.getD n 0 := by
  simp [List.getD_eq_getElem?_getD, List.getElem?_take, h]

/-- toNat distributes over a product of nonnegative integers. -/
theorem toNat_mul_split (a b : Int) (ha : 0 ≤ a) (hb : 0 ≤ b) :
    (a * b).toNat = a.toNat * b.toNat := by
  rw [← Int.toNat_of_nonneg ha, ← Int.toNat_of_nonneg hb, ← Nat.cast_mul,
    Int.toNat_natCast, Int.toNat_natCast, Int.toNat_natCast]

/-- The aligned-copy word read agrees with the in-place word read whenever
the word lies inside the copied length — the heart of the alignment
independence: memcpy preserves the bytes, so the word values match for
either parity of the base address. -/
theorem bpWords_eq (img : List Nat) (len base k : Nat) (h : 2 * k + 1 < len) :
    bpWords img len base k = beWordAt img k := by
  unfold bpWords
  split
  · unfold beWordAt toushort
    have e0 : ((img.take len).drop (2 * k)).getD 0 0 = (img.drop (2 * k)).getD 0 0 := by
      rw [getD_drop, getD_drop, getD_take _ _ _ (by omega)]
    have e1 : ((img.take len).drop (2 * k)).getD 1 0 = (img.drop (2 * k)).getD 1 0 := by
      rw [getD_drop, getD_drop, getD_take _ _ _ (by omega)]
    rw [e0, e1]
  · rfl

/-- The word at index w of row i equals the word at flat index
i * rw + w of the whole image. -/
theorem beWordAt_row (img : List Nat) (rw i w : Nat) :
    rowWordSpec img rw i w = beWordAt img (i * rw + w) := by
  unfold rowWordSpec beWordAt
  rw [List.drop_drop]
  congr 2
  ring

/-- Shift-and-mask bit extraction agrees with testBit. -/
theorem shr_and_one (x s : Nat) : (x >>> s) &&& 1 = if x.testBit s then 1 else 0 := by
  rw [Nat.and_one_is_mod, Nat.testBit_to_div_mod, Nat.shiftRight_eq_div_pow]
  rcases Nat.mod_two_eq_zero_or_one (x / 2 ^ s) with h | h <;> simp [h]

/-- Value at position i * wd + c after one row's column loop: the column's
own write when coff0 + c is among the visited columns, the incoming value
otherwise. -/
theorem foldl_setAt_get (wd i c coff0 : Nat) (v : Nat → Nat) :
    ∀ (L : List Nat) (gp : Nat → Nat), (∀ j ∈ L, coff0 ≤ j) →
    (L.foldl (fun gp j => setAt gp (i * wd + (j - coff0)) (v j)) gp) (i * wd + c) =
      if (coff0 + c) ∈ L then v (coff0 + c) else gp (i * wd + c) := by
  intro L
  induction L with
  | nil => intro gp _; simp
  | cons j L' ih =>
    intro gp hle
    rw [List.foldl_cons]
    rw [ih _ (fun x hx => hle x (List.mem_cons_of_mem j hx))]
    by_cases hmem : (coff0 + c) ∈ L'
    · rw [if_pos hmem, if_pos (List.mem_cons_of_mem j hmem)]
    · rw [if_neg hmem]
      by_cases hj : j = coff0 + c
      · subst hj
        rw [if_pos (List.mem_cons_self _ _)]
        have he : coff0 + c - coff0 = c := by omega
        rw [he, setAt, if_pos rfl]
      · have hne : i * wd + c ≠ i * wd + (j - coff0) := by
          have := hle j (List.mem_cons_self j L')
          omega
        rw [setAt, if_neg hne]
        have hnm : ¬ (coff0 + c) ∈ (j :: L') := by
          intro hx
          rcases List.mem_cons.mp hx with h1 | h2
          · exact hj h1.symm
          · exact hmem h2
        rw [if_neg hnm]

/-- A fold of stores whose targets all avoid idx leaves idx unchanged. -/
theorem foldl_setAt_notouch (w2 : Nat → Nat) (v : Nat → Nat) (idx : Nat) :
    ∀ (L : List Nat) (gp : Nat → Nat), (∀ j ∈ L, w2 j ≠ idx) →
    (L.foldl (fun gp j => setAt gp (w2 j) (v j)) gp) idx = gp idx := by
  intro L
  induction L with
  | nil => intro gp _; rfl
  | cons j L' ih =>
    intro gp hne
    rw [List.foldl_cons, ih _ (fun x hx => hne x (List.mem_cons_of_mem j hx))]
    exact if_neg (fun h => hne j (List.mem_cons_self j L') h.symm)

/-- Rows strictly below row i never write into row i's cells (column
targets stay below wd). -/
theorem rows_foldl_preserve (wd coff0 span : Nat) (v2 : Nat → Nat → Nat)
    (i c : Nat) (hc : c < wd) :
    ∀ (R : List Nat) (gp : Nat → Nat), (∀ i2 ∈ R, i < i2) →
    (R.foldl (fun gp i2 => (List.range' coff0 span).foldl
        (fun gp j => setAt gp (i2 * wd + (j - coff0)) (v2 i2 j)) gp) gp) (i * wd + c) =
      gp (i * wd + c) := by
  intro R
  induction R with
  | nil => intro gp _; rfl
  | cons i0 R' ih =>
    intro gp hgt
    rw [List.foldl_cons, ih _ (fun x hx => hgt x (List.mem_cons_of_mem i0 hx))]
    refine foldl_setAt_notouch _ _ _ _ _ (fun j hj => ?_)
    have h0 := hgt i0 (List.mem_cons_self i0 R')
    have h1 : (i + 1) * wd ≤ i0 * wd := Nat.mul_le_mul_right wd h0
    have h2 : (i + 1) * wd = i * wd + wd := by ring
    omega

/-- Value at position i * wd + c after the full row-by-row extraction
fold: row i's own write wins (rows are visited in increasing order). -/
theorem rows_foldl_get (wd coff0 span : Nat) (v2 : Nat → Nat → Nat)
    (i c : Nat) (hc : c < wd) (hcs : c < span) :
    ∀ (R : List Nat) (gp : Nat → Nat), R.Pairwise (· < ·) → i ∈ R →
    (R.foldl (fun gp i2 => (List.range' coff0 span).foldl
        (fun gp j => setAt gp (i2 * wd + (j - coff0)) (v2 i2 j)) gp) gp) (i * wd + c) =
      v2 i (coff0 + c) := by
  intro R
  induction R with
  | nil => intro gp _ hmem; exact absurd hmem (List.not_mem_nil i)
  | cons i0 R' ih =>
    intro gp hpw hmem
    rw [List.foldl_cons]
    rcases List.mem_cons.mp hmem with rfl | hmem'
    · rw [rows_foldl_preserve wd coff0 span v2 i c hc R' _
        (fun i2 h2 => (List.pairwise_cons.mp hpw).1 i2 h2)]
      have hget := foldl_setAt_get wd i c coff0 (v2 i) (List.range' coff0 span) gp
        (fun j hj => (List.mem_range'_1.mp hj).1)
      rw [hget, if_pos (List.mem_range'_1.mpr ⟨Nat.le_add_right _ _, by omega⟩)]
    · exact ih _ (List.pairwise_cons.mp hpw).2 hmem'

/-- The extracted per-glyph raster holds, at cell (i, c), exactly the bit
the word-fetch formula yields for column coff0 + c of row i. -/
theorem extractGlyph_get (words : Nat → Nat) (wd rw coff0 coff1 ht i c : Nat)
    (hi : i < ht) (hc : c < wd) (hcs : c < coff1 - coff0) :
    extractGlyph words wd rw coff0 coff1 ht (i * wd + c) =
      (words (i * rw + (coff0 + c) / 16) >>> (15 - (coff0 + c) % 16)) &&& 1 := by
  exact rows_foldl_get wd coff0 (coff1 - coff0)
    (fun i2 j => (words (i2 * rw + j / 16) >>> (15 - j % 16)) &&& 1) i c hc hcs
    (List.range ht) (fun _ => 0) (List.pairwise_lt_range ht)
    (List.mem_range.mpr hi)

/-- C3: for every scanline row i below the font height and every bit
column j in [coff0, coff1), the pixel FontDump's rasterizer writes at
raster cell (row i, column j - coff0) equals bit (15 - j mod 16) of the
16-bit most-significant-byte-first word at index j div 16 within row i of
the packed bitmap image; `base`, the parity of the bitmap buffer's
address, is universally quantified, so the value is the same whether the
words are read in place or through the aligned memcpy scratch copy. -/
theorem C3_raster_bit (f : FontRsrc) (base g i j : Nat)
    (hi : i < f.htN) (hj0 : dumpCoff0 f g ≤ j) (hj1 : j < dumpCoff1 f g)
    (hw : j - dumpCoff0 f g < f.wdN) (hrw : j / 16 < f.rwN) :
    dumpRaster f base g (i * f.wdN + (j - dumpCoff0 f g)) =
      if (rowWordSpec f.bitImage f.rwN i (j / 16)).testBit (15 - j % 16) then 1
      else 0 := by
  have hlen : 2 * (i * f.rwN + j / 16) + 1 < f.lenN := by
    have h1 : i * f.rwN + j / 16 < f.htN * f.rwN := by
      have h2 : (i + 1) * f.rwN ≤ f.htN * f.rwN := Nat.mul_le_mul_right _ hi
      have h3 : (i + 1) * f.rwN = i * f.rwN + f.rwN := by ring
      omega
    have hht : (0 : Int) < f.htI := by
      have h5 : 0 < f.htN := by omega
      unfold FontRsrc.htN at h5
      omega
    have hrw2 : (0 : Int) < f.rwI := by
      have h5 : 0 < f.rwN := by omega
      unfold FontRsrc.rwN at h5
      omega
    have h4 : f.lenN = f.htN * f.rwN * 2 := by
      unfold FontRsrc.lenN FontRsrc.htN FontRsrc.rwN
      rw [toNat_mul_split _ _ (by omega) (by omega)]
    omega
  unfold dumpRaster
  rw [extractGlyph_get (bpWords f.bitImage f.lenN base) f.wdN f.rwN
    (dumpCoff0 f g) (dumpCoff1 f g) f.htN i (j - dumpCoff0 f g) hi hw (by omega)]
  have hj : dumpCoff0 f g + (j - dumpCoff0 f g) = j := by omega
  rw [hj, bpWords_eq _ _ _ _ hlen, ← beWordAt_row, shr_and_one]

/-- Witness for C3_raster_bit: glyph A of the scenario font, row 0, bit
column 2, with an odd (memcpy) base address. -/
theorem C3_raster_bit_witness :
    dumpRaster scenFont 1 65 (0 * scenFont.wdN + (2 - dumpCoff0 scenFont 65)) =
      if (rowWordSpec scenFont.bitImage scenFont.rwN 0 (2 / 16)).testBit
          (15 - 2 % 16) then 1
      else 0 :=
  C3_raster_bit scenFont 1 65 0 2 (by decide) (by decide) (by decide)
    (by decide) (by decide)
/-- ORing a bit at most 1 into a left-shifted accumulator is addition. -/
theorem shl1_lor (x a : Nat) (h : a ≤ 1) : (x <<< 1) ||| a = 2 * x + a := by
  have hs : x <<< 1 = 2 * x := by rw [Nat.shiftLeft_eq]; ring
  rcases Nat.le_one_iff_eq_zero_or_eq_one.mp h with rfl | rfl
  · rw [hs, Nat.or_zero, Nat.add_zero]
  · rw [hs]
    have key := Nat.lor_bit false x true 0
    simp only [Nat.bit_val, Bool.toNat_false, Bool.toNat_true, Nat.add_zero, Bool.false_or,
      Nat.or_zero, Nat.mul_zero, Nat.zero_add] at key
    exact key

/-- One byte of the packing loop: starting a byte boundary inside the span
emits exactly the spec byte (most-significant-bit first, right-padded with
zero bits past the span) and continues at the next boundary. -/
theorem packRowAux_step8 (g : Nat → Nat) (span b : Nat) (hg : ∀ t, g t ≤ 1)
    (hb : 8 * b < span) :
    packRowAux g (8 * b) 0 (span - 8 * b) =
      specRowByte g span b :: packRowAux g (8 * (b + 1)) 0 (span - 8 * (b + 1)) := by
  rcases Nat.lt_or_ge span (8 * b + 8) with hlt | hge
  case inl =>
    obtain ⟨d, rfl⟩ : ∃ d, span = 8 * b + d := ⟨span - 8 * b, by omega⟩
    have hd1 : 1 ≤ d := by omega
    have hd7 : d ≤ 7 := by omega
    have htail : 8 * b + d - 8 * (b + 1) = 0 := by omega
    rw [Nat.add_sub_cancel_left, htail]
    have htail2 : packRowAux g (8 * (b + 1)) 0 0 = [] := by
      simp [packRowAux, Nat.mul_mod_right]
    rw [htail2]
    interval_cases d
    · simp only [packRowAux, Nat.mul_mod_right, Nat.mul_add_mod, Nat.add_assoc]
      norm_num
      simp only [Nat.shiftLeft_eq]
      simp only [specRowByte, show List.range 8 = [0, 1, 2, 3, 4, 5, 6, 7] from rfl,
        List.map_cons, List.map_nil, List.sum_cons, List.sum_nil]
      rw [if_pos (by omega), if_neg (by omega), if_neg (by omega), if_neg (by omega), if_neg (by omega), if_neg (by omega), if_neg (by omega), if_neg (by omega)]
      norm_num
      omega
    · simp only [packRowAux, Nat.mul_mod_right, Nat.mul_add_mod, Nat.add_assoc]
      norm_num
      rw [shl1_lor _ _ (hg _)]
      simp only [Nat.shiftLeft_eq]
      simp only [specRowByte, show List.range 8 = [0, 1, 2, 3, 4, 5, 6, 7] from rfl,
        List.map_cons, List.map_nil, List.sum_cons, List.sum_nil]
      rw [if_pos (by omega), if_pos (by omega), if_neg (by omega), if_neg (by omega), if_neg (by omega), if_neg (by omega), if_neg (by omega), if_neg (by omega)]
      norm_num
      omega
    · simp only [packRowAux, Nat.mul_mod_right, Nat.mul_add_mod, Nat.add_assoc]
      norm_num
      rw [shl1_lor _ _ (hg _), shl1_lor _ _ (hg _)]
      simp only [Nat.shiftLeft_eq]
      simp only [specRowByte, show List.range 8 = [0, 1, 2, 3, 4, 5, 6, 7] from rfl,
        List.map_cons, List.map_nil, List.sum_cons, List.sum_nil]
      rw [if_pos (by omega), if_pos (by omega), if_pos (by omega), if_neg (by omega), if_neg (by omega), if_neg (by omega), if_neg (by omega), if_neg (by omega)]
      norm_num
      omega
    · simp only [packRowAux, Nat.mul_mod_right, Nat.mul_add_mod, Nat.add_assoc]
      norm_num
      rw [shl1_lor _ _ (hg _), shl1_lor _ _ (hg _), shl1_lor _ _ (hg _)]
      simp only [Nat.shiftLeft_eq]
      simp only [specRowByte, show List.range 8 = [0, 1, 2, 3, 4, 5, 6, 7] from rfl,
        List.map_cons, List.map_nil, List.sum_cons, List.sum_nil]
      rw [if_pos (by omega), if_pos (by omega), if_pos (by omega), if_pos (by omega), if_neg (by omega), if_neg (by omega), if_neg (by omega), if_neg (by omega)]
      norm_num
      omega
    · simp only [packRowAux, Nat.mul_mod_right, Nat.mul_add_mod, Nat.add_assoc]
      norm_num
      rw [shl1_lor _ _ (hg _), shl1_lor _ _ (hg _), shl1_lor _ _ (hg _), shl1_lor _ _ (hg _)]
      simp only [Nat.shiftLeft_eq]
      simp only [specRowByte, show List.range 8 = [0, 1, 2, 3, 4, 5, 6, 7] from rfl,
        List.map_cons, List.map_nil, List.sum_cons, List.sum_nil]
      rw [if_pos (by omega), if_pos (by omega), if_pos (by omega), if_pos (by omega), if_pos (by omega), if_neg (by omega), if_neg (by omega), if_neg (by omega)]
      norm_num
      omega
    · simp only [packRowAux, Nat.mul_mod_right, Nat.mul_add_mod, Nat.add_assoc]
      norm_num
      rw [shl1_lor _ _ (hg _), shl1_lor _ _ (hg _), shl1_lor _ _ (hg _), shl1_lor _ _ (hg _), shl1_lor _ _ (hg _)]
      simp only [Nat.shiftLeft_eq]
      simp only [specRowByte, show List.range 8 = [0, 1, 2, 3, 4, 5, 6, 7] from rfl,
        List.map_cons, List.map_nil, List.sum_cons, List.sum_nil]
      rw [if_pos (by omega), if_pos (by omega), if_pos (by omega), if_pos (by omega), if_pos (by omega), if_pos (by omega), if_neg (by omega), if_neg (by omega)]
      norm_num
      omega
    · simp only [packRowAux, Nat.mul_mod_right, Nat.mul_add_mod, Nat.add_assoc]
      norm_num
      rw [shl1_lor _ _ (hg _), shl1_lor _ _ (hg _), shl1_lor _ _ (hg _), shl1_lor _ _ (hg _), shl1_lor _ _ (hg _), shl1_lor _ _ (hg _)]
      simp only [Nat.shiftLeft_eq]
      simp only [specRowByte, show List.range 8 = [0, 1, 2, 3, 4, 5, 6, 7] from rfl,
        List.map_cons, List.map_nil, List.sum_cons, List.sum_nil]
      rw [if_pos (by omega), if_pos (by omega), if_pos (by omega), if_pos (by omega), if_pos (by omega), if_pos (by omega), if_pos (by omega), if_neg (by omega)]
      norm_num
      omega
  case inr =>
    obtain ⟨m, hm⟩ : ∃ m, span - 8 * b = m + 8 := ⟨span - 8 * b - 8, by omega⟩
    rw [hm]
    simp only [packRowAux, Nat.mul_mod_right, Nat.mul_add_mod, Nat.add_assoc]
    norm_num
    constructor
    · rw [shl1_lor _ _ (hg _), shl1_lor _ _ (hg _), shl1_lor _ _ (hg _),
        shl1_lor _ _ (hg _), shl1_lor _ _ (hg _), shl1_lor _ _ (hg _),
        shl1_lor _ _ (hg _)]
      simp only [specRowByte, show List.range 8 = [0, 1, 2, 3, 4, 5, 6, 7] from rfl,
        List.map_cons, List.map_nil, List.sum_cons, List.sum_nil]
      rw [if_pos (by omega), if_pos (by omega), if_pos (by omega), if_pos (by omega),
        if_pos (by omega), if_pos (by omega), if_pos (by omega), if_pos (by omega)]
      norm_num
      omega
    · have e1 : 8 * b + 8 = 8 * (b + 1) := by ring
      have e2 : m = span - 8 * (b + 1) := by omega
      rw [e1, e2]

/-- The packing loop from byte boundary b onward emits the spec bytes for
byte indices b through the last one. -/
theorem packRowAux_bytes (g : Nat → Nat) (hg : ∀ t, g t ≤ 1) (span : Nat) :
    ∀ (n b : Nat), (span + 7) / 8 - b = n →
      packRowAux g (8 * b) 0 (span - 8 * b) =
        (List.range' b n).map (specRowByte g span) := by
  intro n
  induction n with
  | zero =>
    intro b hb
    have hf : span - 8 * b = 0 := by omega
    rw [hf]
    simp [packRowAux, Nat.mul_mod_right]
  | succ n ih =>
    intro b hb
    have hbspan : 8 * b < span := by omega
    rw [packRowAux_step8 g span b hg hbspan, ih (b + 1) (by omega), List.range'_succ,
      List.map_cons]

/-- A packed BITMAP row is exactly the list of spec bytes: ceil(span / 8)
bytes, most-significant-bit first, right-padded with zero bits. -/
theorem packRow_bytes (g : Nat → Nat) (hg : ∀ t, g t ≤ 1) (span : Nat) :
    packRow g span = (List.range ((span + 7) / 8)).map (specRowByte g span) := by
  have h := packRowAux_bytes g hg span ((span + 7) / 8) 0 (by omega)
  simp only [Nat.mul_zero, Nat.sub_zero] at h
  rw [packRow, h, List.range_eq_range']

/-- Extracting bit 7 - r of a byte assembled from eight bit values returns
the r-th value. -/
theorem byte_extract_bit (c0 c1 c2 c3 c4 c5 c6 c7 r : Nat)
    (h0 : c0 ≤ 1) (h1 : c1 ≤ 1) (h2 : c2 ≤ 1) (h3 : c3 ≤ 1)
    (h4 : c4 ≤ 1) (h5 : c5 ≤ 1) (h6 : c6 ≤ 1) (h7 : c7 ≤ 1) (hr : r < 8) :
    ((c0 * 128 + c1 * 64 + c2 * 32 + c3 * 16 + c4 * 8 + c5 * 4 + c6 * 2 + c7) >>>
        (7 - r)) &&& 1 =
      if r = 0 then c0 else if r = 1 then c1 else if r = 2 then c2
      else if r = 3 then c3 else if r = 4 then c4 else if r = 5 then c5
      else if r = 6 then c6 else c7 := by
  interval_cases r <;>
    (rw [Nat.shiftRight_eq_div_pow, Nat.and_one_is_mod]; norm_num; omega)

/-- specRowByte written out as an eight-term weighted sum. -/
theorem specRowByte_ifs (g : Nat → Nat) (span b : Nat) :
    specRowByte g span b =
      (if 8 * b + 0 < span then g (8 * b + 0) else 0) * 128 +
      (if 8 * b + 1 < span then g (8 * b + 1) else 0) * 64 +
      (if 8 * b + 2 < span then g (8 * b + 2) else 0) * 32 +
      (if 8 * b + 3 < span then g (8 * b + 3) else 0) * 16 +
      (if 8 * b + 4 < span then g (8 * b + 4) else 0) * 8 +
      (if 8 * b + 5 < span then g (8 * b + 5) else 0) * 4 +
      (if 8 * b + 6 < span then g (8 * b + 6) else 0) * 2 +
      (if 8 * b + 7 < span then g (8 * b + 7) else 0) := by
  simp only [specRowByte, show List.range 8 = [0, 1, 2, 3, 4, 5, 6, 7] from rfl,
    List.map_cons, List.map_nil, List.sum_cons, List.sum_nil]
  norm_num
  ring

/-- Round trip on one row: decoding bit q of the packed row returns raster
value q, for every q inside the span. -/
theorem decode_packRow (g : Nat → Nat) (hg : ∀ t, g t ≤ 1) (span q : Nat)
    (hq : q < span) :
    decodeRowBit (packRow g span) q = g q := by
  rw [decodeRowBit, packRow_bytes g hg span]
  have hlt : q / 8 < (span + 7) / 8 := by omega
  have hgd : ((List.range ((span + 7) / 8)).map (specRowByte g span)).getD (q / 8) 0 =
      specRowByte g span (q / 8) := by
    simp [List.getD_eq_getElem?_getD, List.getElem?_map, List.getElem?_range, hlt]
  rw [hgd, specRowByte_ifs]
  have hbnd : ∀ t, (if 8 * (q / 8) + t < span then g (8 * (q / 8) + t) else 0) ≤ 1 := by
    intro t
    split
    · exact hg _
    · omega
  rw [byte_extract_bit _ _ _ _ _ _ _ _ (q % 8) (hbnd 0) (hbnd 1) (hbnd 2) (hbnd 3)
    (hbnd 4) (hbnd 5) (hbnd 6) (hbnd 7) (by omega)]
  have h8 : q % 8 < 8 := Nat.mod_lt _ (by norm_num)
  set r := q % 8 with hr
  interval_cases r <;>
    (norm_num; rw [if_pos (by omega)]; congr 1; omega)

/-- getD of a mapped arithmetic range. -/
theorem getD_map_range (a n k : Nat) (f : Nat → List Nat) (hk : k < n) :
    ((List.range' a n).map f).getD k [] = f (a + k) := by
  simp [List.getD_eq_getElem?_getD, List.getElem?_map, List.getElem?_range', hk]

/-- A fold of stores of values at most 1 keeps every cell at most 1. -/
theorem foldl_setAt_le_one (w2 v : Nat → Nat) (hv : ∀ j, v j ≤ 1) :
    ∀ (L : List Nat) (gp : Nat → Nat), (∀ t, gp t ≤ 1) →
    ∀ t, (L.foldl (fun gp j => setAt gp (w2 j) (v j)) gp) t ≤ 1 := by
  intro L
  induction L with
  | nil => intro gp h t; exact h t
  | cons j L' ih =>
    intro gp h t
    rw [List.foldl_cons]
    refine ih _ (fun t2 => ?_) t
    unfold setAt
    split
    · exact hv j
    · exact h t2

/-- Every cell of an extracted glyph raster is 0 or 1 (the source stores
masked single bits into a zeroed buffer). -/
theorem extractGlyph_le_one (words : Nat → Nat) (wd rw coff0 coff1 ht t : Nat) :
    extractGlyph words wd rw coff0 coff1 ht t ≤ 1 := by
  unfold extractGlyph
  have main : ∀ (R : List Nat) (gp : Nat → Nat), (∀ t2, gp t2 ≤ 1) →
      ∀ t2, (R.foldl (fun gp i =>
        (List.range' coff0 (coff1 - coff0)).foldl (fun gp j =>
          setAt gp (i * wd + (j - coff0))
            ((words (i * rw + j / 16) >>> (15 - j % 16)) &&& 1)) gp) gp) t2 ≤ 1 := by
    intro R
    induction R with
    | nil => intro gp h t2; exact h t2
    | cons i R' ih =>
      intro gp h t2
      rw [List.foldl_cons]
      refine ih _ (fun t3 => ?_) t2
      exact foldl_setAt_le_one (fun j => i * wd + (j - coff0))
        (fun j => (words (i * rw + j / 16) >>> (15 - j % 16)) &&& 1)
        (fun j => Nat.and_le_right) _ gp h t3
  exact main _ _ (fun _ => Nat.zero_le 1) t

/-- The per-glyph raster of FontDump holds only 0 or 1 values. -/
theorem dumpRaster_le_one (f : FontRsrc) (base g t : Nat) :
    dumpRaster f base g t ≤ 1 :=
  extractGlyph_le_one _ _ _ _ _ _ _

/-- A live glyph's record carries exactly the rows dumpRows produces. -/
theorem dumpGlyph_bitmap (f : FontRsrc) (base g : Nat) (rec : GlyphRecord)
    (h : dumpGlyph f base g = some rec) : rec.bitmap = dumpRows f base g := by
  simp only [dumpGlyph] at h
  split at h
  · exact Option.noConfusion h
  · injection h with h2
    rw [← h2]

/-- C5: for every emitted glyph, decoding the hex bitmap rows back into
bits — most-significant-bit first, the right zero-padding beyond the
glyph's column span discarded — reproduces exactly the raster pixels of
the rows from the glyph's bounding-box top to its bounding-box bottom:
bit q of emitted row i - top equals the raster value at (row i, column q)
for every q inside the span. -/
theorem C5_roundtrip (f : FontRsrc) (base g : Nat) (rec : GlyphRecord) (i q : Nat)
    (h : dumpGlyph f base g = some rec)
    (hti : dumpTop f base g ≤ i) (hbi : i ≤ dumpBot f base g)
    (hq : q < dumpSpan f g) :
    decodeRowBit (rec.bitmap.getD (i - dumpTop f base g) []) q =
      dumpRaster f base g (i * f.wdN + q) := by
  rw [dumpGlyph_bitmap f base g rec h]
  unfold dumpRows
  rw [getD_map_range _ _ _ _ (by omega)]
  have he : dumpTop f base g + (i - dumpTop f base g) = i := by omega
  rw [he]
  exact decode_packRow _ (fun t => dumpRaster_le_one f base g _) _ _ hq

/-- Witness for C5_roundtrip: glyph A of the scenario font, row 0, bit
column 2 of the hex row a0. -/
theorem C5_roundtrip_witness :
    decodeRowBit ((GlyphRecord.mk 65 5760 0 8 0 4 1 0 0 [[160]]).bitmap.getD
      (0 - dumpTop scenFont 0 65) []) 2 =
      dumpRaster scenFont 0 65 (0 * scenFont.wdN + 2) :=
  C5_roundtrip scenFont 0 65 ⟨65, 5760, 0, 8, 0, 4, 1, 0, 0, [[160]]⟩ 0 2
    (by decide) (by decide) (by decide) (by decide)

/-- One column step of the bounding-row scan only lowers top and raises
bot. -/
theorem innerTB_mono (gp : Nat → Nat) (wd i : Nat) :
    ∀ (L : List Nat) (tb : Nat × Nat),
    (L.foldl (fun tb j =>
      (if gp (i * wd + j) ≠ 0 ∧ i < tb.1 then i else tb.1,
       if gp (i * wd + j) ≠ 0 ∧ tb.2 < i then i else tb.2)) tb).1 ≤ tb.1 ∧
    tb.2 ≤ (L.foldl (fun tb j =>
      (if gp (i * wd + j) ≠ 0 ∧ i < tb.1 then i else tb.1,
       if gp (i * wd + j) ≠ 0 ∧ tb.2 < i then i else tb.2)) tb).2 := by
  intro L
  induction L with
  | nil => intro tb; exact ⟨Nat.le_refl _, Nat.le_refl _⟩
  | cons j L' ih =>
    intro tb
    rw [List.foldl_cons]
    constructor
    · refine Nat.le_trans (ih _).1 ?_
      dsimp only
      split <;> omega
    · refine Nat.le_trans ?_ (ih _).2
      dsimp only
      split <;> omega

/-- After scanning a row that has ink at a visited column, the running
top is at most that row and the running bot at least it. -/
theorem innerTB_hit (gp : Nat → Nat) (wd i : Nat) :
    ∀ (L : List Nat) (tb : Nat × Nat) (j : Nat), j ∈ L → gp (i * wd + j) ≠ 0 →
    (L.foldl (fun tb j =>
      (if gp (i * wd + j) ≠ 0 ∧ i < tb.1 then i else tb.1,
       if gp (i * wd + j) ≠ 0 ∧ tb.2 < i then i else tb.2)) tb).1 ≤ i ∧
    i ≤ (L.foldl (fun tb j =>
      (if gp (i * wd + j) ≠ 0 ∧ i < tb.1 then i else tb.1,
       if gp (i * wd + j) ≠ 0 ∧ tb.2 < i then i else tb.2)) tb).2 := by
  intro L
  induction L with
  | nil => intro tb j hj; exact absurd hj (List.not_mem_nil j)
  | cons j0 L' ih =>
    intro tb j hj hbit
    rw [List.foldl_cons]
    rcases List.mem_cons.mp hj with rfl | hj'
    · have h1 : (if gp (i * wd + j) ≠ 0 ∧ i < tb.1 then i else tb.1) ≤ i := by
        by_cases hlt : i < tb.1
        · rw [if_pos ⟨hbit, hlt⟩]
        · rw [if_neg (fun hc => hlt hc.2)]
          omega
      have h2 : i ≤ (if gp (i * wd + j) ≠ 0 ∧ tb.2 < i then i else tb.2) := by
        by_cases hlt : tb.2 < i
        · rw [if_pos ⟨hbit, hlt⟩]
        · rw [if_neg (fun hc => hlt hc.2)]
          omega
      have hm := innerTB_mono gp wd i L'
        ((if gp (i * wd + j) ≠ 0 ∧ i < tb.1 then i else tb.1),
         (if gp (i * wd + j) ≠ 0 ∧ tb.2 < i then i else tb.2))
      exact ⟨Nat.le_trans hm.1 h1, Nat.le_trans h2 hm.2⟩
    · exact ih _ j hj' hbit

/-- Any raster cell with ink constrains the scanned top and bot: the ink
row lies between them, so rows outside [top, bot] are entirely blank. -/
theorem findTopBot_ink (gp : Nat → Nat) (wd ht i j : Nat) (hi : i < ht)
    (hj : j < wd) (hbit : gp (i * wd + j) ≠ 0) :
    (findTopBot gp wd ht).1 ≤ i ∧ i ≤ (findTopBot gp wd ht).2 := by
  unfold findTopBot
  have main : ∀ (R : List Nat) (tb : Nat × Nat), i ∈ R →
      (R.foldl (fun tb i2 => (List.range wd).foldl (fun tb j2 =>
        (if gp (i2 * wd + j2) ≠ 0 ∧ i2 < tb.1 then i2 else tb.1,
         if gp (i2 * wd + j2) ≠ 0 ∧ tb.2 < i2 then i2 else tb.2)) tb) tb).1 ≤ i ∧
      i ≤ (R.foldl (fun tb i2 => (List.range wd).foldl (fun tb j2 =>
        (if gp (i2 * wd + j2) ≠ 0 ∧ i2 < tb.1 then i2 else tb.1,
         if gp (i2 * wd + j2) ≠ 0 ∧ tb.2 < i2 then i2 else tb.2)) tb) tb).2 := by
    intro R
    induction R with
    | nil => intro tb hmem; exact absurd hmem (List.not_mem_nil i)
    | cons i0 R' ih =>
      intro tb hmem
      rw [List.foldl_cons]
      rcases List.mem_cons.mp hmem with rfl | hmem'
      · have hrow := innerTB_hit gp wd i (List.range wd) tb j
          (List.mem_range.mpr hj) hbit
        have hmono : ∀ (R2 : List Nat) (tb2 : Nat × Nat),
            (R2.foldl (fun tb i2 => (List.range wd).foldl (fun tb j2 =>
              (if gp (i2 * wd + j2) ≠ 0 ∧ i2 < tb.1 then i2 else tb.1,
               if gp (i2 * wd + j2) ≠ 0 ∧ tb.2 < i2 then i2 else tb.2)) tb) tb2).1 ≤ tb2.1 ∧
            tb2.2 ≤ (R2.foldl (fun tb i2 => (List.range wd).foldl (fun tb j2 =>
              (if gp (i2 * wd + j2) ≠ 0 ∧ i2 < tb.1 then i2 else tb.1,
               if gp (i2 * wd + j2) ≠ 0 ∧ tb.2 < i2 then i2 else tb.2)) tb) tb2).2 := by
          intro R2
          induction R2 with
          | nil => intro tb2; exact ⟨Nat.le_refl _, Nat.le_refl _⟩
          | cons i2 R2' ih2 =>
            intro tb2
            rw [List.foldl_cons]
            have hinner := innerTB_mono gp wd i2 (List.range wd) tb2
            have houter := ih2 ((List.range wd).foldl (fun tb j2 =>
              (if gp (i2 * wd + j2) ≠ 0 ∧ i2 < tb.1 then i2 else tb.1,
               if gp (i2 * wd + j2) ≠ 0 ∧ tb.2 < i2 then i2 else tb.2)) tb2)
            exact ⟨Nat.le_trans houter.1 hinner.1, Nat.le_trans hinner.2 houter.2⟩
        have hrest := hmono R' ((List.range wd).foldl (fun tb j2 =>
          (if gp (i * wd + j2) ≠ 0 ∧ i < tb.1 then i else tb.1,
           if gp (i * wd + j2) ≠ 0 ∧ tb.2 < i then i else tb.2)) tb)
        exact ⟨Nat.le_trans hrest.1 hrow.1, Nat.le_trans hrow.2 hrest.2⟩
      · exact ih _ hmem'
  exact main (List.range ht) (ht, 0) (List.mem_range.mpr hi)

/-- C4: the claim says the bitmap rows are rendered as uppercase
hexadecimal pairs, the scenario row being hex A0.  Counterexample: the
renderer uses lowercase hex (printf %02x), so the scenario's only bitmap
row — byte value 0xA0 — is rendered as the line a0, and no line A0 is
written. -/
theorem C4_counterexample :
    hexLine [160] = "a0" ∧
    (FontDump (some scenFont) (some "Test") 0 12 true 0).lines.getD 15 "" = "a0" ∧
    "A0" ∉ (FontDump (some scenFont) (some "Test") 0 12 true 0).lines := by
  decide

/-- C4 (amended): for every emitted glyph the BITMAP section contains
exactly the rows from the glyph's own top to its own bottom inclusive
(any row holding ink lies between top and bottom, so only ink-free rows
outside them are dropped), each row packed most-significant-bit first
into bytes right-padded with zero bits to the next byte boundary and
rendered as LOWERCASE hexadecimal pairs, one row per output line; in the
section 8 scenario the output has one emitted glyph, CHARS 1, a BBX width
of 4, and bitmap row byte 0xA0 rendered as the line a0. -/
theorem C4_bitmap_rows (f : FontRsrc) (base g : Nat) (rec : GlyphRecord)
    (r i2 : Nat)
    (h : dumpGlyph f base g = some rec)
    (hr : r < rec.bitmap.length)
    (hi2 : i2 < f.htN)
    (hink : rowInk (dumpRaster f base g) f.wdN i2) :
    rec.bitmap.length = dumpBot f base g + 1 - dumpTop f base g ∧
    rec.bitmap.getD r [] =
      (List.range ((dumpSpan f g + 7) / 8)).map
        (specRowByte
          (fun q => dumpRaster f base g ((dumpTop f base g + r) * f.wdN + q))
          (dumpSpan f g)) ∧
    (dumpTop f base g ≤ i2 ∧ i2 ≤ dumpBot f base g) ∧
    ((FontDump (some scenFont) (some "Test") 0 12 true 0).records =
      [⟨65, 5760, 0, 8, 0, 4, 1, 0, 0, [[160]]⟩] ∧
     "CHARS 1" ∈ (FontDump (some scenFont) (some "Test") 0 12 true 0).lines ∧
     hexLine [160] = "a0" ∧
     "a0" ∈ (FontDump (some scenFont) (some "Test") 0 12 true 0).lines) := by
  have hbm := dumpGlyph_bitmap f base g rec h
  have hlen : rec.bitmap.length = dumpBot f base g + 1 - dumpTop f base g := by
    rw [hbm]
    unfold dumpRows
    rw [List.length_map, List.length_range']
  refine ⟨hlen, ?_, ?_, by decide⟩
  · rw [hbm]
    unfold dumpRows
    rw [getD_map_range _ _ _ _ (by omega)]
    exact packRow_bytes _ (fun t => dumpRaster_le_one f base g _) _
  · obtain ⟨j, hj, hb⟩ := hink
    unfold dumpTop dumpBot
    exact findTopBot_ink _ _ _ _ _ hi2 hj hb

/-- Witness for C4_bitmap_rows: the scenario font's glyph A, its only
bitmap row and its only ink row. -/
theorem C4_bitmap_rows_witness :
    (GlyphRecord.mk 65 5760 0 8 0 4 1 0 0 [[160]]).bitmap.length =
      dumpBot scenFont 0 65 + 1 - dumpTop scenFont 0 65 ∧
    (GlyphRecord.mk 65 5760 0 8 0 4 1 0 0 [[160]]).bitmap.getD 0 [] =
      (List.range ((dumpSpan scenFont 65 + 7) / 8)).map
        (specRowByte
          (fun q => dumpRaster scenFont 0 65
            ((dumpTop scenFont 0 65 + 0) * scenFont.wdN + q))
          (dumpSpan scenFont 65)) ∧
    (dumpTop scenFont 0 65 ≤ 0 ∧ 0 ≤ dumpBot scenFont 0 65) ∧
    ((FontDump (some scenFont) (some "Test") 0 12 true 0).records =
      [⟨65, 5760, 0, 8, 0, 4, 1, 0, 0, [[160]]⟩] ∧
     "CHARS 1" ∈ (FontDump (some scenFont) (some "Test") 0 12 true 0).lines ∧
     hexLine [160] = "a0" ∧
     "a0" ∈ (FontDump (some scenFont) (some "Test") 0 12 true 0).lines) :=
  C4_bitmap_rows scenFont 0 65 ⟨65, 5760, 0, 8, 0, 4, 1, 0, 0, [[160]]⟩ 0 0
    (by decide) (by decide) (by decide) ⟨0, by decide, by decide⟩
